import Mathlib

/-!
Verification of the safe expression evaluator of `calculator_python_adv.py`.

The Python program parses a user-typed arithmetic string with `ast.parse`,
walks the resulting tree in `safe_eval`, allowing only a fixed operator
table (`ALLOWED_OPERATORS`) and a fixed name registry (`ALLOWED_NAMES`),
and the UI entry point `evaluate_expression` first rewrites the display
glyphs (`×`, `÷`, `^`, `%`) into canonical tokens.

This file shallowly embeds that pipeline:
* Python numbers (ints and floats) are idealized as real numbers `ℝ`;
  a decimal literal is kept exactly as a mantissa/scale pair of naturals
  and becomes the real `mant / 10 ^ scale` at evaluation time.
* Python exceptions become `Except EvalErr`.
* The fragment of Python's expression grammar relevant to the calculator
  is modelled by a fuel-based tokenizer and precedence-climbing parser.
-/

namespace Calc

/-- Error kinds corresponding to the Python exceptions that can escape
`safe_eval` (all are caught uniformly by `evaluate_expression`). -/
inductive EvalErr where
  /-- `ast.parse` raised `SyntaxError`. -/
  | synErr
  /-- `ALLOWED_OPERATORS[type(node.op)]` raised `KeyError`. -/
  | keyErr
  /-- `raise ValueError("Invalid function")`. -/
  | invalidFunction
  /-- `raise ValueError("Unsupported expression")`. -/
  | unsupported
  /-- `TypeError` (bad arity / non-numeric argument / calling a constant). -/
  | typeErr
  /-- `ZeroDivisionError`. -/
  | zeroDiv
  /-- `ValueError` from a math-domain error (e.g. `math.sqrt(-1)`). -/
  | domainErr
  /-- Result of applying a registry function whose numeric semantics this
  development does not model (none of the theorems below depend on it). -/
  | unmodelledMath
deriving DecidableEq

/-- A Python runtime value as it can flow through `safe_eval`:
numbers (int/float idealized as `ℝ`), complex numbers (as a pair of
reals), strings, booleans, `None`, and function objects (identified by
their registry name, standing for the callable stored in
`ALLOWED_NAMES`). -/
inductive PyVal where
  | num (x : ℝ)
  | complexV (re im : ℝ)
  | str (s : String)
  | bool (b : Bool)
  | noneV
  | funcObj (name : String)

/-- The binary operator node kinds of Python's `ast`; the first six are
the keys of `ALLOWED_OPERATORS`, the rest are representative operator
kinds a Python expression can contain but the table omits. -/
inductive BinOpK where
  | add | sub | mult | div | pow | mod
  | floorDiv | bitOr | bitAnd | bitXor | lshift | rshift | matMult
deriving DecidableEq

/-- Unary operator node kinds of Python's `ast`; `ALLOWED_OPERATORS`
contains `USub` and `UAdd` but not `Not` or `Invert`. -/
inductive UnOpK where
  | usub | uadd | notOp | invert
deriving DecidableEq

/-- The payload of an `ast.Constant` node: Python's parser produces
numeric, string, boolean and `None` literals.  A numeric literal is kept
structurally as its digit string's value: `num mant scale` denotes the
exact decimal `mant / 10 ^ scale` (e.g. `0.5` is `num 5 1`). -/
inductive PyConst where
  | num (mant scale : ℕ)
  | str (s : String)
  | bool (b : Bool)
  | noneC
deriving DecidableEq

mutual
/-- The Python `ast` expression nodes relevant to `safe_eval`: the node
kinds it handles (`Constant`, `BinOp`, `UnaryOp`, `Call`, `Name`) plus
representative kinds that fall through to
`raise ValueError("Unsupported expression")` (`Attribute`, `Subscript`,
`List`, `Lambda`, `Compare`, `IfExp`).  `Call` keeps its function
position as a full expression, as in Python's `ast`. -/
inductive Expr where
  | const (c : PyConst)
  | binop (op : BinOpK) (l r : Expr)
  | unop (op : UnOpK) (e : Expr)
  | call (f : Expr) (args : ExprList)
  | name (id : String)
  | attrAccess (obj : Expr) (attr : String)
  | subscript (obj idx : Expr)
  | listLit (elts : ExprList)
  | lambdaE (body : Expr)
  | compareE (l r : Expr)
  | ifExp (c t e : Expr)
deriving DecidableEq

/-- Argument lists of `Call` nodes (a specialized list so that recursion
over the tree stays structural). -/
inductive ExprList where
  | nil
  | cons (e : Expr) (es : ExprList)
deriving DecidableEq
end

/-- `round_small(val, eps=1e-10)`: returns `0` when `|val| < eps`,
otherwise `val` (the Python function returns the int `0`, idealized here
as the real `0`). -/
noncomputable def round_small (val : ℝ) : ℝ :=
  if |val| < 1e-10 then 0 else val

/-- `math.radians(x) = x·π/180`. -/
noncomputable def radiansR (x : ℝ) : ℝ := x * Real.pi / 180

/-- `sin_deg(x) = round_small(math.sin(math.radians(x)))`. -/
noncomputable def sin_deg (x : ℝ) : ℝ := round_small (Real.sin (radiansR x))

/-- `cos_deg(x) = round_small(math.cos(math.radians(x)))`. -/
noncomputable def cos_deg (x : ℝ) : ℝ := round_small (Real.cos (radiansR x))

/-- `tan_deg(x) = round_small(math.tan(math.radians(x)))`. -/
noncomputable def tan_deg (x : ℝ) : ℝ := round_small (Real.tan (radiansR x))

/-- A registry entry of `ALLOWED_NAMES`: either a numeric constant
(e.g. `math.pi`) or a callable. -/
inductive PyEntry where
  | const (v : PyVal)
  | fn (f : List PyVal → Except EvalErr PyVal)

/-- Lifts a real function to a registry callable of arity one; any other
argument list raises `TypeError` in Python (wrong arity or a non-numeric
argument). -/
noncomputable def liftReal (f : ℝ → ℝ) : List PyVal → Except EvalErr PyVal
  | [PyVal.num x] => .ok (.num (f x))
  | _ => .error .typeErr

/-- `math.sqrt`: `ValueError` (math domain error) on negative input. -/
noncomputable def math_sqrt : List PyVal → Except EvalErr PyVal
  | [PyVal.num x] => if x < 0 then .error .domainErr else .ok (.num (Real.sqrt x))
  | _ => .error .typeErr

/-- `math.log`: one-argument natural log (`ValueError` on non-positive
input) or two-argument `log(x, base)`. -/
noncomputable def math_log : List PyVal → Except EvalErr PyVal
  | [PyVal.num x] => if x ≤ 0 then .error .domainErr else .ok (.num (Real.log x))
  | [PyVal.num x, PyVal.num b] =>
      if x ≤ 0 ∨ b ≤ 0 then .error .domainErr
      else .ok (.num (Real.log x / Real.log b))
  | _ => .error .typeErr

/-- `math.acosh`: domain `x ≥ 1`; on the domain it equals
`log (x + sqrt (x² - 1))`. -/
noncomputable def math_acosh : List PyVal → Except EvalErr PyVal
  | [PyVal.num x] =>
      if x < 1 then .error .domainErr
      else .ok (.num (Real.log (x + Real.sqrt (x ^ 2 - 1))))
  | _ => .error .typeErr

/-- `math.atanh`: domain `|x| < 1`; on the domain it equals
`log ((1 + x) / (1 - x)) / 2`. -/
noncomputable def math_atanh : List PyVal → Except EvalErr PyVal
  | [PyVal.num x] =>
      if 1 ≤ |x| then .error .domainErr
      else .ok (.num (Real.log ((1 + x) / (1 - x)) / 2))
  | _ => .error .typeErr

open scoped Classical in
/-- Python 3's power operator on numbers (`operator.pow`), idealized over
`ℝ`: `0` raised to a negative power raises `ZeroDivisionError`; a
non-negative base gives the real power; a negative base with an integral
exponent gives the real power; a negative base with a fractional
exponent returns a COMPLEX number (CPython: "Negative numbers raised to
fractional powers become complex."), not an error. -/
noncomputable def pyPow (a b : ℝ) : Except EvalErr PyVal :=
  if a = 0 ∧ b < 0 then .error .zeroDiv
  else if 0 ≤ a then .ok (.num (a ^ b))
  else if ∃ n : ℤ, b = (n : ℝ) then .ok (.num (a ^ b))
  else .ok (.complexV (((a : ℂ) ^ (b : ℂ)).re) (((a : ℂ) ^ (b : ℂ)).im))

/-- The builtin `pow` as registered in `ALLOWED_NAMES` (two numeric
arguments; the three-argument integer form and other argument types are
`TypeError`-like failures, unmodelled beyond that). -/
noncomputable def builtin_pow : List PyVal → Except EvalErr PyVal
  | [PyVal.num a, PyVal.num b] => pyPow a b
  | _ => .error .typeErr

/-- The builtin `abs` as registered in `ALLOWED_NAMES`: absolute value of
a number, magnitude of a complex number, `bool` coerced as an int. -/
noncomputable def builtin_abs : List PyVal → Except EvalErr PyVal
  | [PyVal.num x] => .ok (.num |x|)
  | [PyVal.complexV r i] => .ok (.num (Real.sqrt (r ^ 2 + i ^ 2)))
  | [PyVal.bool b] => .ok (.num (if b then 1 else 0))
  | _ => .error .typeErr

/-- Placeholder semantics for the remaining `math`-module functions kept
in `ALLOWED_NAMES` by the reflection loop: only their NAMES (hence
registry membership) are modelled; applying one yields the dedicated
`unmodelledMath` error.  No theorem in this file evaluates any of them. -/
def unmodelledFn (_name : String) : List PyVal → Except EvalErr PyVal :=
  fun _ => .error .unmodelledMath

/-- The public names of the host `math` module (CPython 3.10) that are
not given explicit semantics above; `ALLOWED_NAMES` includes them via
`{k: getattr(math, k) for k in dir(math) if not k.startswith("_")}`.
(`inf` and `nan` are constants in Python; they have no real-number
idealization and are likewise left unmodelled.) -/
def mathExtraNames : List String :=
  ["acos", "asin", "atan", "atan2", "comb", "copysign", "dist", "erf",
   "erfc", "expm1", "factorial", "fmod", "frexp", "fsum", "gamma", "gcd",
   "hypot", "inf", "isclose", "isfinite", "isinf", "isnan", "isqrt",
   "lcm", "ldexp", "lgamma", "log10", "log1p", "log2", "modf", "nan",
   "nextafter", "perm", "prod", "remainder", "trunc", "ulp"]

/-- `ALLOWED_NAMES`: every public `math` attribute, then the explicit
overrides (`abs`, `pow`, degree-based `sin`/`cos`/`tan`, the
hyperbolics).  Lookup is exact and case-sensitive; names outside the
table resolve to `none`. -/
noncomputable def registry (name : String) : Option PyEntry :=
  match name with
  | "abs" => some (.fn builtin_abs)
  | "pow" => some (.fn builtin_pow)
  | "sin" => some (.fn (liftReal sin_deg))
  | "cos" => some (.fn (liftReal cos_deg))
  | "tan" => some (.fn (liftReal tan_deg))
  | "sinh" => some (.fn (liftReal Real.sinh))
  | "cosh" => some (.fn (liftReal Real.cosh))
  | "tanh" => some (.fn (liftReal Real.tanh))
  | "asinh" => some (.fn (liftReal Real.arsinh))
  | "acosh" => some (.fn math_acosh)
  | "atanh" => some (.fn math_atanh)
  | "sqrt" => some (.fn math_sqrt)
  | "exp" => some (.fn (liftReal Real.exp))
  | "log" => some (.fn math_log)
  | "radians" => some (.fn (liftReal radiansR))
  | "degrees" => some (.fn (liftReal (fun x => x * 180 / Real.pi)))
  | "fabs" => some (.fn (liftReal (fun x => |x|)))
  | "floor" => some (.fn (liftReal (fun x => (⌊x⌋ : ℝ))))
  | "ceil" => some (.fn (liftReal (fun x => (⌈x⌉ : ℝ))))
  | "pi" => some (.const (.num Real.pi))
  | "e" => some (.const (.num (Real.exp 1)))
  | "tau" => some (.const (.num (2 * Real.pi)))
  | n => if n ∈ mathExtraNames then some (.fn (unmodelledFn n)) else none

/-- Coercion of a `PyVal` to a number where Python arithmetic would
accept it: numbers are themselves, and `bool` is an `int` subclass
(`True` counts as `1`). -/
noncomputable def asNum : PyVal → Option ℝ
  | .num x => some x
  | .bool b => some (if b then 1 else 0)
  | _ => none

/-- `operator.add`: numeric addition (with bool-as-int coercion) or
string concatenation; other operand combinations (complex arithmetic,
sequence types) are unmodelled `TypeError`-style failures. -/
noncomputable def binAdd (a b : PyVal) : Except EvalErr PyVal :=
  match a, b with
  | .str s, .str t => .ok (.str (s ++ t))
  | a, b =>
    match asNum a, asNum b with
    | some x, some y => .ok (.num (x + y))
    | _, _ => .error .typeErr

/-- `operator.sub` on numbers. -/
noncomputable def binSub (a b : PyVal) : Except EvalErr PyVal :=
  match asNum a, asNum b with
  | some x, some y => .ok (.num (x - y))
  | _, _ => .error .typeErr

/-- `operator.mul` on numbers (string repetition is unmodelled). -/
noncomputable def binMul (a b : PyVal) : Except EvalErr PyVal :=
  match asNum a, asNum b with
  | some x, some y => .ok (.num (x * y))
  | _, _ => .error .typeErr

open scoped Classical in
/-- `operator.truediv`: raises `ZeroDivisionError` on a zero divisor,
otherwise real division. -/
noncomputable def binDiv (a b : PyVal) : Except EvalErr PyVal :=
  match asNum a, asNum b with
  | some x, some y => if y = 0 then .error .zeroDiv else .ok (.num (x / y))
  | _, _ => .error .typeErr

/-- `operator.pow` (see `pyPow`). -/
noncomputable def binPow (a b : PyVal) : Except EvalErr PyVal :=
  match asNum a, asNum b with
  | some x, some y => pyPow x y
  | _, _ => .error .typeErr

open scoped Classical in
/-- `operator.mod`: Python's `%` on numbers, `x - y·⌊x/y⌋` (the result
takes the divisor's sign); `ZeroDivisionError` on a zero divisor. -/
noncomputable def binMod (a b : PyVal) : Except EvalErr PyVal :=
  match asNum a, asNum b with
  | some x, some y =>
    if y = 0 then .error .zeroDiv else .ok (.num (x - y * (⌊x / y⌋ : ℝ)))
  | _, _ => .error .typeErr

/-- The `ALLOWED_OPERATORS` table restricted to `ast.BinOp` keys: a
lookup outside the six allowed operators raises `KeyError`. -/
noncomputable def allowedBinFn : BinOpK → Option (PyVal → PyVal → Except EvalErr PyVal)
  | .add => some binAdd
  | .sub => some binSub
  | .mult => some binMul
  | .div => some binDiv
  | .pow => some binPow
  | .mod => some binMod
  | _ => none

/-- `operator.neg` on numbers. -/
noncomputable def unNeg (a : PyVal) : Except EvalErr PyVal :=
  match asNum a with
  | some x => .ok (.num (-x))
  | none => .error .typeErr

/-- `operator.pos` on numbers. -/
noncomputable def unPos (a : PyVal) : Except EvalErr PyVal :=
  match asNum a with
  | some x => .ok (.num x)
  | none => .error .typeErr

/-- The `ALLOWED_OPERATORS` table restricted to `ast.UnaryOp` keys
(`USub`, `UAdd`); `Not` and `Invert` raise `KeyError`. -/
noncomputable def allowedUnFn : UnOpK → Option (PyVal → Except EvalErr PyVal)
  | .usub => some unNeg
  | .uadd => some unPos
  | _ => none

/-- The value of an `ast.Constant` node: `safe_eval` returns
`node.value` unchanged, whatever its type. -/
noncomputable def constVal : PyConst → PyVal
  | .num mant scale => .num ((mant : ℝ) / 10 ^ scale)
  | .str s => .str s
  | .bool b => .bool b
  | .noneC => .noneV

/-- What `ALLOWED_NAMES[id]` evaluates to when read as a bare name:
a constant entry gives its value, a function entry gives the function
object itself. -/
def entryVal (id : String) : PyEntry → PyVal
  | .const v => v
  | .fn _ => .funcObj id

/-- Calling the object stored in the registry: a function entry is
applied to the argument list; a constant entry (e.g. `pi(1)`) raises
`TypeError` (not callable). -/
def applyEntry : PyEntry → List PyVal → Except EvalErr PyVal
  | .fn g, vs => g vs
  | .const _, _ => .error .typeErr

mutual
/-- The recursive `_eval` of `safe_eval`, on an already-parsed tree:
* `Constant` → its value (of any type);
* `BinOp`/`UnaryOp` → look the operator up in `ALLOWED_OPERATORS`
  (`KeyError` if absent), then evaluate operands left to right and apply;
* `Call` → only when the function position is a `Name` present in
  `ALLOWED_NAMES` (else `ValueError("Invalid function")`), evaluate the
  arguments left to right and apply the registered callable;
* `Name` → the registered object if present, else
  `ValueError("Unsupported expression")`;
* every other node kind → `ValueError("Unsupported expression")`. -/
noncomputable def evalAst : Expr → Except EvalErr PyVal
  | .const c => .ok (constVal c)
  | .binop op l r =>
    match allowedBinFn op with
    | none => .error .keyErr
    | some f => do
      let x ← evalAst l
      let y ← evalAst r
      f x y
  | .unop op e =>
    match allowedUnFn op with
    | none => .error .keyErr
    | some f => do
      let x ← evalAst e
      f x
  | .call f args =>
    match f with
    | .name fid =>
      match registry fid with
      | some ent => do
        let vs ← evalArgs args
        applyEntry ent vs
      | none => .error .invalidFunction
    | _ => .error .invalidFunction
  | .name nid =>
    match registry nid with
    | some ent => .ok (entryVal nid ent)
    | none => .error .unsupported
  | .attrAccess _ _ => .error .unsupported
  | .subscript _ _ => .error .unsupported
  | .listLit _ => .error .unsupported
  | .lambdaE _ => .error .unsupported
  | .compareE _ _ => .error .unsupported
  | .ifExp _ _ _ => .error .unsupported

/-- Evaluation of a `Call` node's arguments, left to right, stopping at
the first failure (the list comprehension `[_eval(a) for a in node.args]`). -/
noncomputable def evalArgs : ExprList → Except EvalErr (List PyVal)
  | .nil => .ok []
  | .cons e es => do
    let v ← evalAst e
    let vs ← evalArgs es
    .ok (v :: vs)
end

/-- `true` exactly when the evaluation outcome is an exception. -/
def isErr {α : Type} : Except EvalErr α → Bool
  | .error _ => true
  | .ok _ => false

@[simp] theorem except_bind_ok {α β : Type} (a : α) (f : α → Except EvalErr β) :
    (Except.ok a : Except EvalErr α) >>= f = f a := rfl

@[simp] theorem except_bind_error {α β : Type} (e : EvalErr) (f : α → Except EvalErr β) :
    (Except.error e : Except EvalErr α) >>= f = Except.error e := rfl

@[simp] theorem isErr_ok {α : Type} (a : α) : isErr (Except.ok a) = false := rfl

@[simp] theorem isErr_error {α : Type} (e : EvalErr) :
    isErr (Except.error e : Except EvalErr α) = true := rfl

mutual
/-- A tree CONTAINS A DISALLOWED CONSTRUCT when some node of it is
outside the allow-list `safe_eval` enforces: a binary or unary operator
absent from `ALLOWED_OPERATORS`, a call whose function position is not a
`Name` found in `ALLOWED_NAMES`, a bare `Name` absent from
`ALLOWED_NAMES`, or a node kind `_eval` has no branch for. -/
noncomputable def containsDisallowed : Expr → Bool
  | .const _ => false
  | .binop op l r =>
    (allowedBinFn op).isNone || containsDisallowed l || containsDisallowed r
  | .unop op e => (allowedUnFn op).isNone || containsDisallowed e
  | .call f args =>
    (match f with
     | .name fid => (registry fid).isNone
     | _ => true) || containsDisallowedList args
  | .name nid => (registry nid).isNone
  | .attrAccess _ _ => true
  | .subscript _ _ => true
  | .listLit _ => true
  | .lambdaE _ => true
  | .compareE _ _ => true
  | .ifExp _ _ _ => true

/-- `containsDisallowed` over an argument list. -/
noncomputable def containsDisallowedList : ExprList → Bool
  | .nil => false
  | .cons e es => containsDisallowed e || containsDisallowedList es
end

/-! ## Preprocessing

`evaluate_expression` runs
`expression.replace('×','*').replace('÷','/').replace('^','**').replace('%','/100')`.
Each needle is a single character, so Python's left-to-right
non-overlapping `str.replace` is exactly a per-character substitution. -/

/-- One `str.replace(old, new)` pass for a single-character needle. -/
def replaceChar (old : Char) (new : List Char) : List Char → List Char
  | [] => []
  | c :: cs => (if c = old then new else [c]) ++ replaceChar old new cs

/-- The four glyph substitutions of `evaluate_expression`, in source
order: `×`→`*`, `÷`→`/`, `^`→`**`, `%`→`/100`. -/
def preprocessChars (s : List Char) : List Char :=
  replaceChar '%' ['/', '1', '0', '0']
    (replaceChar '^' ['*', '*']
      (replaceChar '÷' ['/']
        (replaceChar '×' ['*'] s)))

/-! ## Tokenizer

A model of the lexical layer of `ast.parse` for the fragment of Python
the calculator strings live in: decimal numbers, identifiers,
single-quoted string literals, the arithmetic operator characters and
punctuation.  Characters outside this fragment make the model reject
the input, as CPython raises `SyntaxError` on strings outside the full
grammar. -/

/-- Tokens (numeric literals as in `PyConst.num`). -/
inductive Tok where
  | num (mant scale : ℕ)
  | ident (s : String)
  | strTok (s : String)
  | plus | minus | star | slash | percent | dstar
  | lparen | rparen | comma
deriving DecidableEq

/-- First character of a Python identifier (ASCII letters and `_`). -/
def isIdentStart (c : Char) : Bool := c.isAlpha || c = '_'

/-- Subsequent character of a Python identifier. -/
def isIdentChar (c : Char) : Bool := c.isAlphanum || c = '_'

/-- Numeric value of a digit string. -/
def digitsVal (ds : List Char) : ℕ :=
  ds.foldl (fun n c => 10 * n + (c.toNat - 48)) 0

/-- The decimal literal `ds.fs` as a mantissa/scale pair: its exact
value is `(digitsVal ds * 10 ^ fs.length + digitsVal fs) / 10 ^ fs.length`. -/
def decTok (ds fs : List Char) : Tok :=
  .num (digitsVal ds * 10 ^ fs.length + digitsVal fs) fs.length

/-- The single-quote character. -/
def quoteChar : Char := Char.ofNat 39

/-- Scan a decimal numeric literal from an input starting with a digit:
the integer digits, then optionally a decimal point and the fractional
digits.  Returns the token and the remaining characters. -/
def scanNumber (cs : List Char) : Tok × List Char :=
  let ds := cs.takeWhile Char.isDigit
  match cs.dropWhile Char.isDigit with
  | '.' :: cs2 => (decTok ds (cs2.takeWhile Char.isDigit), cs2.dropWhile Char.isDigit)
  | rest => (decTok ds [], rest)

/-- Scan a single-quoted string literal given the characters after the
opening quote; fails when the literal is unterminated. -/
def scanStrLit (cs : List Char) : Option (Tok × List Char) :=
  match cs.dropWhile (fun d => d ≠ quoteChar) with
  | _ :: cs2 => some (Tok.strTok (String.mk (cs.takeWhile (fun d => d ≠ quoteChar))), cs2)
  | [] => none

/-- Scan `*` or `**` given the characters after the first `*`. -/
def scanStar (cs : List Char) : Tok × List Char :=
  match cs with
  | '*' :: cs2 => (Tok.dstar, cs2)
  | _ => (Tok.star, cs)

/-- Scan one token from a non-empty input whose head is not a blank:
a decimal number, an identifier, a single-quoted string literal, or an
operator/punctuation character; any other character is a lexical error.
Returns the token and the remaining characters. -/
def scanTok : List Char → Option (Tok × List Char)
  | [] => none
  | c :: cs =>
    if c.isDigit then some (scanNumber (c :: cs))
    else if isIdentStart c then
      some (Tok.ident (String.mk ((c :: cs).takeWhile isIdentChar)),
            (c :: cs).dropWhile isIdentChar)
    else if c = quoteChar then scanStrLit cs
    else if c = '*' then some (scanStar cs)
    else if c = '+' then some (Tok.plus, cs)
    else if c = '-' then some (Tok.minus, cs)
    else if c = '/' then some (Tok.slash, cs)
    else if c = '%' then some (Tok.percent, cs)
    else if c = '(' then some (Tok.lparen, cs)
    else if c = ')' then some (Tok.rparen, cs)
    else if c = ',' then some (Tok.comma, cs)
    else none

/-- Fuel-based tokenizer loop: skip blanks, otherwise scan one token and
continue on the rest; every step consumes at least one character, so fuel
`length + 1` always suffices. -/
def tokenize : ℕ → List Char → Option (List Tok)
  | 0, _ => none
  | _ + 1, [] => some []
  | fuel + 1, c :: cs =>
    if c = ' ' then tokenize fuel cs
    else
      match scanTok (c :: cs) with
      | some (t, rest) => (tokenize fuel rest).map (fun ts => t :: ts)
      | none => none

/-! ## Parser

Precedence climbing over the token stream, following Python's grammar
for this fragment: `+`/`-` at level 1, `*`/`/`/`%` at level 2, unary
`+`/`-` at level 3, right-associative `**` at level 4 binding tighter
than unary minus on its left but accepting unary expressions on its
right (`-2**2 = -(2**2)`, `2**-1` is legal). -/

/-- Binding data of a binary-operator token: the `ast` operator kind,
its precedence, and whether it is right-associative. -/
def tokPrec : Tok → Option (BinOpK × ℕ × Bool)
  | .plus => some (.add, 1, false)
  | .minus => some (.sub, 1, false)
  | .star => some (.mult, 2, false)
  | .slash => some (.div, 2, false)
  | .percent => some (.mod, 2, false)
  | .dstar => some (.pow, 4, true)
  | _ => none

/-- The keyword constants of Python: `True`, `False` and `None` are
lexed like names but parse to `ast.Constant` nodes, not `ast.Name`. -/
def keywordConst (s : String) : Option PyConst :=
  if s = "True" then some (.bool true)
  else if s = "False" then some (.bool false)
  else if s = "None" then some .noneC
  else none

/-- Consume the closing parenthesis after a parenthesized expression. -/
def parseCloseParen (e : Expr) : List Tok → Option (Expr × List Tok)
  | .rparen :: rest => some (e, rest)
  | _ => none

mutual
/-- Parse an expression whose binary operators all have precedence at
least `minPrec`. -/
def parsePrec : ℕ → ℕ → List Tok → Option (Expr × List Tok)
  | 0, _, _ => none
  | fuel + 1, minPrec, ts => do
    let (lhs, rest) ← parseAtom fuel ts
    parseLoop fuel minPrec lhs rest

/-- Fold binary operators of sufficient precedence onto `lhs`. -/
def parseLoop : ℕ → ℕ → Expr → List Tok → Option (Expr × List Tok)
  | 0, _, _, _ => none
  | fuel + 1, minPrec, lhs, ts =>
    match ts with
    | t :: rest =>
      match tokPrec t with
      | some (op, p, rightAssoc) =>
        if minPrec ≤ p then do
          let (rhs, rest2) ← parsePrec fuel (if rightAssoc then p else p + 1) rest
          parseLoop fuel minPrec (.binop op lhs rhs) rest2
        else some (lhs, ts)
      | none => some (lhs, ts)
    | [] => some (lhs, ts)

/-- Parse an atom: a literal, a (possibly called) name, a unary sign
applied at precedence 3, or a parenthesized expression. -/
def parseAtom : ℕ → List Tok → Option (Expr × List Tok)
  | 0, _ => none
  | _ + 1, .num mant scale :: rest => some (.const (.num mant scale), rest)
  | _ + 1, .strTok s :: rest => some (.const (.str s), rest)
  | fuel + 1, .ident id :: rest => parseIdentTail fuel id rest
  | fuel + 1, .minus :: rest => do
    let (e, rest2) ← parsePrec fuel 3 rest
    some (.unop .usub e, rest2)
  | fuel + 1, .plus :: rest => do
    let (e, rest2) ← parsePrec fuel 3 rest
    some (.unop .uadd e, rest2)
  | fuel + 1, .lparen :: rest => do
    let (e, rest2) ← parsePrec fuel 1 rest
    parseCloseParen e rest2
  | _ + 1, _ => none

/-- Parse what follows a lexed name: keyword constants (`True`,
`False`, `None`) become `Constant` nodes; a following `(` makes a
`Call`; otherwise the atom is a bare `Name`. -/
def parseIdentTail : ℕ → String → List Tok → Option (Expr × List Tok)
  | 0, _, _ => none
  | fuel + 1, id, rest =>
    match keywordConst id with
    | some c => some (.const c, rest)
    | none => parseCallTail fuel id rest

/-- Parse the argument part of a call when the name is directly
followed by `(`; otherwise produce the bare `Name` node. -/
def parseCallTail : ℕ → String → List Tok → Option (Expr × List Tok)
  | 0, _, _ => none
  | _ + 1, id, .lparen :: .rparen :: rest => some (.call (.name id) .nil, rest)
  | fuel + 1, id, .lparen :: rest => do
    let (args, rest2) ← parseArgs fuel rest
    some (.call (.name id) args, rest2)
  | _ + 1, id, rest => some (.name id, rest)

/-- Parse a non-empty comma-separated argument list followed by `)`. -/
def parseArgs : ℕ → List Tok → Option (ExprList × List Tok)
  | 0, _ => none
  | fuel + 1, ts => do
    let (e, rest) ← parsePrec fuel 1 ts
    match rest with
    | .comma :: rest2 => do
      let (es, rest3) ← parseArgs fuel rest2
      some (.cons e es, rest3)
    | .rparen :: rest2 => some (.cons e .nil, rest2)
    | _ => none
end

/-- `ast.parse(expr, mode='eval')` for this fragment: tokenize, parse a
whole expression, and require that every token is consumed. -/
def parseString (cs : List Char) : Option Expr :=
  match tokenize (cs.length + 1) cs with
  | none => none
  | some ts =>
    match parsePrec (8 * ts.length + 32) 1 ts with
    | some (e, []) => some e
    | _ => none

/-- `safe_eval(expr)`: parse the string (a `SyntaxError` is modelled as
the `synErr` failure) and run `_eval` on the tree. -/
noncomputable def safe_eval (s : String) : Except EvalErr PyVal :=
  match parseString s.data with
  | none => .error .synErr
  | some e => evalAst e

/-- The evaluation pipeline of `evaluate_expression`: glyph substitution
followed by `safe_eval`; the surrounding `try`/`except` maps any
`.error` outcome to the displayed `"Error"`. -/
noncomputable def evaluate_expression (s : String) : Except EvalErr PyVal :=
  safe_eval (String.mk (preprocessChars s.data))

theorem safe_eval_eq_of_parse {s : String} {e : Expr}
    (h : parseString s.data = some e) : safe_eval s = evalAst e := by
  unfold safe_eval
  rw [h]

theorem safe_eval_synErr_of_parse_none {s : String}
    (h : parseString s.data = none) : safe_eval s = .error .synErr := by
  unfold safe_eval
  rw [h]

theorem evaluate_expression_eq_of_parse {s : String} {e : Expr}
    (h : parseString (preprocessChars s.data) = some e) :
    evaluate_expression s = evalAst e := by
  unfold evaluate_expression safe_eval
  rw [show (String.mk (preprocessChars s.data)).data = preprocessChars s.data from rfl, h]

theorem evaluate_expression_synErr_of_parse_none {s : String}
    (h : parseString (preprocessChars s.data) = none) :
    evaluate_expression s = .error .synErr := by
  unfold evaluate_expression safe_eval
  rw [show (String.mk (preprocessChars s.data)).data = preprocessChars s.data from rfl, h]

/-! ## Fail-closed evaluation: a tree containing a disallowed construct
always evaluates to an error. -/

theorem disallowed_aux :
    ∀ n : ℕ,
      (∀ e : Expr, sizeOf e ≤ n → containsDisallowed e = true → isErr (evalAst e) = true) ∧
      (∀ l : ExprList, sizeOf l ≤ n → containsDisallowedList l = true → isErr (evalArgs l) = true) := by
  intro n
  induction n with
  | zero =>
    constructor
    · intro e hs _
      exfalso
      cases e <;> simp at hs
    · intro l hs _
      exfalso
      cases l <;> simp at hs
  | succ n ih =>
    constructor
    · intro e hs hd
      cases e with
      | const c => simp [containsDisallowed] at hd
      | binop op l r =>
        simp only [containsDisallowed, Bool.or_eq_true] at hd
        cases hop : allowedBinFn op with
        | none => simp [evalAst, hop]
        | some f =>
          have hl : sizeOf l ≤ n := by simp at hs; omega
          have hr : sizeOf r ≤ n := by simp at hs; omega
          rcases hd with (hd | hd) | hd
          · rw [hop] at hd; simp at hd
          · have := ih.1 l hl hd
            cases hel : evalAst l with
            | error err => simp [evalAst, hop, hel]
            | ok v => rw [hel] at this; simp [isErr] at this
          · have := ih.1 r hr hd
            cases hel : evalAst l with
            | error err => simp [evalAst, hop, hel]
            | ok v =>
              cases her : evalAst r with
              | error err => simp [evalAst, hop, hel, her]
              | ok w => rw [her] at this; simp [isErr] at this
      | unop op e' =>
        simp only [containsDisallowed, Bool.or_eq_true] at hd
        cases hop : allowedUnFn op with
        | none => simp [evalAst, hop]
        | some f =>
          have he : sizeOf e' ≤ n := by simp at hs; omega
          rcases hd with hd | hd
          · rw [hop] at hd; simp at hd
          · have := ih.1 e' he hd
            cases hee : evalAst e' with
            | error err => simp [evalAst, hop, hee]
            | ok v => rw [hee] at this; simp [isErr] at this
      | call f args =>
        simp only [containsDisallowed, Bool.or_eq_true] at hd
        cases f with
        | name fid =>
          cases hreg : registry fid with
          | none => simp [evalAst, hreg]
          | some ent =>
            have hargs : sizeOf args ≤ n := by simp at hs; omega
            rcases hd with hd | hd
            · simp [hreg] at hd
            · have := ih.2 args hargs hd
              cases hea : evalArgs args with
              | error err => simp [evalAst, hreg, hea]
              | ok vs => rw [hea] at this; simp [isErr] at this
        | const c => simp [evalAst]
        | binop op l r => simp [evalAst]
        | unop op e' => simp [evalAst]
        | call g as => simp [evalAst]
        | attrAccess o a => simp [evalAst]
        | subscript o i => simp [evalAst]
        | listLit es => simp [evalAst]
        | lambdaE b => simp [evalAst]
        | compareE l r => simp [evalAst]
        | ifExp c t e' => simp [evalAst]
      | name nid =>
        simp only [containsDisallowed] at hd
        cases hreg : registry nid with
        | none => simp [evalAst, hreg]
        | some ent => rw [hreg] at hd; simp at hd
      | attrAccess o a => simp [evalAst]
      | subscript o i => simp [evalAst]
      | listLit es => simp [evalAst]
      | lambdaE b => simp [evalAst]
      | compareE l r => simp [evalAst]
      | ifExp c t e' => simp [evalAst]
    · intro l hs hd
      cases l with
      | nil => simp [containsDisallowedList] at hd
      | cons e es =>
        simp only [containsDisallowedList, Bool.or_eq_true] at hd
        have he : sizeOf e ≤ n := by simp at hs; omega
        have hes : sizeOf es ≤ n := by simp at hs; omega
        rcases hd with hd | hd
        · have := ih.1 e he hd
          cases hee : evalAst e with
          | error err => simp [evalArgs, hee]
          | ok v => rw [hee] at this; simp [isErr] at this
        · have := ih.2 es hes hd
          cases hee : evalAst e with
          | error err => simp [evalArgs, hee]
          | ok v =>
            cases hes2 : evalArgs es with
            | error err => simp [evalArgs, hee, hes2]
            | ok vs => rw [hes2] at this; simp [isErr] at this

/-- A tree containing any disallowed construct never evaluates to a
value: `_eval` raises on it or on the path to it. -/
theorem evalAst_err_of_disallowed {e : Expr} (hd : containsDisallowed e = true) :
    isErr (evalAst e) = true :=
  (disallowed_aux (sizeOf e)).1 e le_rfl hd

/-! ## The percent substitution and the unreachability of `mod`. -/

theorem mem_dropWhile_imp_mem {α : Type} (p : α → Bool) :
    ∀ (l : List α) (x : α), x ∈ l.dropWhile p → x ∈ l := by
  intro l
  induction l with
  | nil => intro x h; simp [List.dropWhile] at h
  | cons c cs ih =>
    intro x h
    by_cases hp : p c
    · rw [List.dropWhile_cons_of_pos hp] at h
      exact List.mem_cons_of_mem c (ih x h)
    · rw [List.dropWhile_cons_of_neg hp] at h
      exact h

theorem percent_not_mem_replace :
    ∀ l : List Char, '%' ∉ replaceChar '%' ['/', '1', '0', '0'] l := by
  intro l
  induction l with
  | nil => simp [replaceChar]
  | cons c cs ih =>
    simp only [replaceChar, List.mem_append]
    rintro (h | h)
    · by_cases hc : c = '%'
      · rw [if_pos hc] at h
        simp at h
      · rw [if_neg hc] at h
        simp at h
        exact hc h.symm
    · exact ih h

/-- No `'%'` character survives the preprocessing substitutions. -/
theorem percent_not_mem_preprocess (s : List Char) :
    '%' ∉ preprocessChars s :=
  percent_not_mem_replace _

theorem scanNumber_no_percent {cs : List Char} (hcs : '%' ∉ cs) :
    (scanNumber cs).1 ≠ Tok.percent ∧ '%' ∉ (scanNumber cs).2 := by
  unfold scanNumber
  have hdw : '%' ∉ cs.dropWhile Char.isDigit :=
    fun hm => hcs (mem_dropWhile_imp_mem _ _ _ hm)
  split
  next cs2 heq =>
    refine ⟨by simp [decTok], fun hm => ?_⟩
    have : '%' ∈ cs.dropWhile Char.isDigit := by
      rw [heq]
      exact List.mem_cons_of_mem _ (mem_dropWhile_imp_mem _ _ _ hm)
    exact hdw this
  next rest heq =>
    exact ⟨by simp [decTok], fun hm => hdw hm⟩

theorem scanStrLit_no_percent {cs rest : List Char} {t : Tok}
    (hcs : '%' ∉ cs) (h : scanStrLit cs = some (t, rest)) :
    t ≠ Tok.percent ∧ '%' ∉ rest := by
  unfold scanStrLit at h
  split at h
  next d cs2 heq =>
    simp only [Option.some.injEq, Prod.mk.injEq] at h
    refine ⟨by rw [← h.1]; simp, fun hm => ?_⟩
    rw [← h.2] at hm
    have : '%' ∈ cs.dropWhile (fun d => d ≠ quoteChar) := by
      rw [heq]
      exact List.mem_cons_of_mem _ hm
    exact hcs (mem_dropWhile_imp_mem _ _ _ this)
  next => simp at h

theorem scanStar_no_percent {cs : List Char} (hcs : '%' ∉ cs) :
    (scanStar cs).1 ≠ Tok.percent ∧ '%' ∉ (scanStar cs).2 := by
  unfold scanStar
  split
  next cs2 => exact ⟨by simp, fun hm => hcs (List.mem_cons_of_mem _ hm)⟩
  next => exact ⟨by simp, hcs⟩

set_option maxHeartbeats 1000000 in
theorem scanTok_no_percent {cs rest : List Char} {t : Tok}
    (hcs : '%' ∉ cs) (h : scanTok cs = some (t, rest)) :
    t ≠ Tok.percent ∧ '%' ∉ rest := by
  match cs with
  | [] => simp [scanTok] at h
  | c :: cs' =>
    have hc : c ≠ '%' := fun hc => hcs (hc ▸ List.mem_cons_self c cs')
    have hcs' : '%' ∉ cs' := fun hm => hcs (List.mem_cons_of_mem c hm)
    unfold scanTok at h
    simp only [] at h
    split_ifs at h with h1 h2 h3 h4 h5 h6 h7 h8 h9 h10
    · -- number
      simp only [Option.some.injEq] at h
      have := @scanNumber_no_percent (c :: cs') hcs
      rw [h] at this
      exact this
    · -- identifier
      simp only [Option.some.injEq, Prod.mk.injEq] at h
      refine ⟨by rw [← h.1]; simp, fun hm => ?_⟩
      rw [← h.2] at hm
      exact hcs (mem_dropWhile_imp_mem _ _ _ hm)
    · -- string literal
      exact scanStrLit_no_percent hcs' h
    · -- star
      simp only [Option.some.injEq] at h
      have := @scanStar_no_percent cs' hcs'
      rw [h] at this
      exact this
    · simp only [Option.some.injEq, Prod.mk.injEq] at h
      exact ⟨by rw [← h.1]; simp, h.2 ▸ hcs'⟩
    · simp only [Option.some.injEq, Prod.mk.injEq] at h
      exact ⟨by rw [← h.1]; simp, h.2 ▸ hcs'⟩
    · simp only [Option.some.injEq, Prod.mk.injEq] at h
      exact ⟨by rw [← h.1]; simp, h.2 ▸ hcs'⟩
    · simp only [Option.some.injEq, Prod.mk.injEq] at h
      exact ⟨by rw [← h.1]; simp, h.2 ▸ hcs'⟩
    · simp only [Option.some.injEq, Prod.mk.injEq] at h
      exact ⟨by rw [← h.1]; simp, h.2 ▸ hcs'⟩
    · simp only [Option.some.injEq, Prod.mk.injEq] at h
      exact ⟨by rw [← h.1]; simp, h.2 ▸ hcs'⟩

/-- Tokenizing a string without `'%'` yields no `percent` token. -/
theorem tokenize_no_percent :
    ∀ (fuel : ℕ) (cs : List Char) (ts : List Tok), '%' ∉ cs →
      tokenize fuel cs = some ts → Tok.percent ∉ ts := by
  intro fuel
  induction fuel with
  | zero => intro cs ts _ h; simp [tokenize] at h
  | succ fuel ih =>
    intro cs ts hcs htok
    match cs with
    | [] =>
      rw [show tokenize (fuel + 1) ([] : List Char) = some [] from rfl] at htok
      injection htok with htok
      simp [← htok]
    | c :: cs' =>
      have hcs' : '%' ∉ cs' := fun h => hcs (List.mem_cons_of_mem c h)
      rw [tokenize] at htok
      by_cases h1 : c = ' '
      · rw [if_pos h1] at htok
        exact ih cs' ts hcs' htok
      · rw [if_neg h1] at htok
        cases hscan : scanTok (c :: cs') with
        | none => rw [hscan] at htok; simp at htok
        | some pr =>
          obtain ⟨t, rest⟩ := pr
          rw [hscan] at htok
          simp only [] at htok
          cases hrest : tokenize fuel rest with
          | none => rw [hrest] at htok; simp at htok
          | some ts' =>
            rw [hrest] at htok
            simp at htok
            obtain ⟨htne, hrmem⟩ := scanTok_no_percent hcs hscan
            have : Tok.percent ∉ ts' := ih rest ts' hrmem hrest
            rw [← htok]
            intro hm
            rcases List.mem_cons.mp hm with hm | hm
            · exact htne hm.symm
            · exact this hm


/-! ## `ast.Mod` is unreachable through `evaluate_expression`. -/

/-- Is this operator kind `ast.Mod`? -/
def isModK : BinOpK → Bool
  | .mod => true
  | _ => false

mutual
/-- Does the tree contain a `BinOp` node carrying `ast.Mod`? -/
def containsModOp : Expr → Bool
  | .const _ => false
  | .binop op l r => isModK op || containsModOp l || containsModOp r
  | .unop _ e => containsModOp e
  | .call f args => containsModOp f || containsModOpList args
  | .name _ => false
  | .attrAccess o _ => containsModOp o
  | .subscript o i => containsModOp o || containsModOp i
  | .listLit es => containsModOpList es
  | .lambdaE b => containsModOp b
  | .compareE l r => containsModOp l || containsModOp r
  | .ifExp c t e => containsModOp c || containsModOp t || containsModOp e

/-- `containsModOp` over an argument list. -/
def containsModOpList : ExprList → Bool
  | .nil => false
  | .cons e es => containsModOp e || containsModOpList es
end

theorem tokPrec_not_mod {t : Tok} {op : BinOpK} {p : ℕ} {ra : Bool}
    (hne : t ≠ Tok.percent) (h : tokPrec t = some (op, p, ra)) : isModK op = false := by
  cases t <;> simp [tokPrec] at h <;> first
    | (obtain ⟨h1, h2, h3⟩ := h; rw [← h1]; rfl)
    | exact absurd rfl hne

theorem parse_no_mod_aux :
    ∀ fuel : ℕ,
      (∀ minPrec ts e rest, Tok.percent ∉ ts →
        parsePrec fuel minPrec ts = some (e, rest) →
        containsModOp e = false ∧ Tok.percent ∉ rest) ∧
      (∀ minPrec lhs ts e rest, Tok.percent ∉ ts → containsModOp lhs = false →
        parseLoop fuel minPrec lhs ts = some (e, rest) →
        containsModOp e = false ∧ Tok.percent ∉ rest) ∧
      (∀ ts e rest, Tok.percent ∉ ts →
        parseAtom fuel ts = some (e, rest) →
        containsModOp e = false ∧ Tok.percent ∉ rest) ∧
      (∀ id ts e rest, Tok.percent ∉ ts →
        parseIdentTail fuel id ts = some (e, rest) →
        containsModOp e = false ∧ Tok.percent ∉ rest) ∧
      (∀ id ts e rest, Tok.percent ∉ ts →
        parseCallTail fuel id ts = some (e, rest) →
        containsModOp e = false ∧ Tok.percent ∉ rest) ∧
      (∀ ts es rest, Tok.percent ∉ ts →
        parseArgs fuel ts = some (es, rest) →
        containsModOpList es = false ∧ Tok.percent ∉ rest) := by
  intro fuel
  induction fuel with
  | zero =>
    refine ⟨?_, ?_, ?_, ?_, ?_, ?_⟩
    · intro _ _ _ _ _ h; simp [parsePrec] at h
    · intro _ _ _ _ _ _ _ h; simp [parseLoop] at h
    · intro _ _ _ _ h; simp [parseAtom] at h
    · intro _ _ _ _ _ h; simp [parseIdentTail] at h
    · intro _ _ _ _ _ h; simp [parseCallTail] at h
    · intro _ _ _ _ h; simp [parseArgs] at h
  | succ fuel ih =>
    obtain ⟨ihP, ihL, ihA, ihI, ihC, ihG⟩ := ih
    refine ⟨?_, ?_, ?_, ?_, ?_, ?_⟩
    · -- parsePrec
      intro minPrec ts e rest hts h
      rw [parsePrec] at h
      cases hA : parseAtom fuel ts with
      | none =>
        rw [hA] at h
        exact absurd ((rfl : (none : Option (Expr × List Tok)) = none) ▸ h) (by simp)
      | some pr =>
        obtain ⟨lhs, r1⟩ := pr
        rw [hA] at h
        replace h : parseLoop fuel minPrec lhs r1 = some (e, rest) := h
        obtain ⟨hA1, hA2⟩ := ihA ts lhs r1 hts hA
        exact ihL minPrec lhs r1 e rest hA2 hA1 h
    · -- parseLoop
      intro minPrec lhs ts e rest hts hlhs h
      cases ts with
      | nil =>
        replace h : some (lhs, ([] : List Tok)) = some (e, rest) := h
        simp at h
        exact ⟨h.1 ▸ hlhs, h.2 ▸ (by simp)⟩
      | cons t r' =>
        have htne : t ≠ Tok.percent := fun he => hts (he ▸ List.mem_cons_self t r')
        have hr' : Tok.percent ∉ r' := fun hm => hts (List.mem_cons_of_mem t hm)
        rw [parseLoop.eq_def] at h
        simp only [] at h
        cases hTP : tokPrec t with
        | none =>
          rw [hTP] at h
          replace h : some (lhs, t :: r') = some (e, rest) := h
          simp at h
          exact ⟨h.1 ▸ hlhs, h.2 ▸ hts⟩
        | some trip =>
          obtain ⟨op, p, ra⟩ := trip
          rw [hTP] at h
          replace h : (if minPrec ≤ p then
              (parsePrec fuel (if ra then p else p + 1) r').bind
                (fun q => parseLoop fuel minPrec (.binop op lhs q.1) q.2)
            else some (lhs, t :: r')) = some (e, rest) := h
          by_cases hmp : minPrec ≤ p
          · rw [if_pos hmp] at h
            cases hR : parsePrec fuel (if ra then p else p + 1) r' with
            | none =>
              rw [hR] at h
              exact absurd h (by simp)
            | some pr2 =>
              obtain ⟨rhs, r2⟩ := pr2
              rw [hR] at h
              replace h : parseLoop fuel minPrec (Expr.binop op lhs rhs) r2 = some (e, rest) := h
              obtain ⟨hR1, hR2⟩ := ihP (if ra then p else p + 1) r' rhs r2 hr' hR
              have hbin : containsModOp (.binop op lhs rhs) = false := by
                simp [containsModOp, tokPrec_not_mod htne hTP, hlhs, hR1]
              exact ihL minPrec (.binop op lhs rhs) r2 e rest hR2 hbin h
          · rw [if_neg hmp] at h
            replace h : some (lhs, t :: r') = some (e, rest) := h
            simp at h
            exact ⟨h.1 ▸ hlhs, h.2 ▸ hts⟩
    · -- parseAtom
      intro ts e rest hts h
      cases ts with
      | nil => exact absurd (show (none : Option (Expr × List Tok)) = some (e, rest) from h) (by simp)
      | cons t r' =>
        have hr' : Tok.percent ∉ r' := fun hm => hts (List.mem_cons_of_mem t hm)
        cases t with
        | num mant scale =>
          replace h : some ((Expr.const (.num mant scale) : Expr), r') = some (e, rest) := h
          simp at h
          exact ⟨h.1 ▸ rfl, h.2 ▸ hr'⟩
        | strTok s =>
          replace h : some ((Expr.const (.str s) : Expr), r') = some (e, rest) := h
          simp at h
          exact ⟨h.1 ▸ rfl, h.2 ▸ hr'⟩
        | ident id =>
          replace h : parseIdentTail fuel id r' = some (e, rest) := h
          exact ihI id r' e rest hr' h
        | minus =>
          replace h : (parsePrec fuel 3 r').bind
              (fun p => some (.unop .usub p.1, p.2)) = some (e, rest) := h
          cases hR : parsePrec fuel 3 r' with
          | none => rw [hR] at h; exact absurd h (by simp)
          | some pr =>
            obtain ⟨e2, r2⟩ := pr
            rw [hR] at h
            replace h : some ((Expr.unop .usub e2 : Expr), r2) = some (e, rest) := h
            simp at h
            obtain ⟨hR1, hR2⟩ := ihP 3 r' e2 r2 hr' hR
            exact ⟨h.1 ▸ (by simp [containsModOp, hR1]), h.2 ▸ hR2⟩
        | plus =>
          replace h : (parsePrec fuel 3 r').bind
              (fun p => some (.unop .uadd p.1, p.2)) = some (e, rest) := h
          cases hR : parsePrec fuel 3 r' with
          | none => rw [hR] at h; exact absurd h (by simp)
          | some pr =>
            obtain ⟨e2, r2⟩ := pr
            rw [hR] at h
            replace h : some ((Expr.unop .uadd e2 : Expr), r2) = some (e, rest) := h
            simp at h
            obtain ⟨hR1, hR2⟩ := ihP 3 r' e2 r2 hr' hR
            exact ⟨h.1 ▸ (by simp [containsModOp, hR1]), h.2 ▸ hR2⟩
        | lparen =>
          replace h : (parsePrec fuel 1 r').bind
              (fun p => parseCloseParen p.1 p.2) = some (e, rest) := h
          cases hR : parsePrec fuel 1 r' with
          | none => rw [hR] at h; exact absurd h (by simp)
          | some pr =>
            obtain ⟨e2, r2⟩ := pr
            rw [hR] at h
            replace h : parseCloseParen e2 r2 = some (e, rest) := h
            obtain ⟨hR1, hR2⟩ := ihP 1 r' e2 r2 hr' hR
            cases r2 with
            | nil => exact absurd (show (none : Option (Expr × List Tok)) = some (e, rest) from h) (by simp)
            | cons t3 r3 =>
              have hr3 : Tok.percent ∉ r3 := fun hm => hR2 (List.mem_cons_of_mem t3 hm)
              cases t3 with
              | rparen =>
                replace h : some (e2, r3) = some (e, rest) := h
                simp at h
                exact ⟨h.1 ▸ hR1, h.2 ▸ hr3⟩
              | num m2 s2 => exact absurd (show (none : Option (Expr × List Tok)) = some (e, rest) from h) (by simp)
              | strTok s2 => exact absurd (show (none : Option (Expr × List Tok)) = some (e, rest) from h) (by simp)
              | ident i2 => exact absurd (show (none : Option (Expr × List Tok)) = some (e, rest) from h) (by simp)
              | plus => exact absurd (show (none : Option (Expr × List Tok)) = some (e, rest) from h) (by simp)
              | minus => exact absurd (show (none : Option (Expr × List Tok)) = some (e, rest) from h) (by simp)
              | star => exact absurd (show (none : Option (Expr × List Tok)) = some (e, rest) from h) (by simp)
              | slash => exact absurd (show (none : Option (Expr × List Tok)) = some (e, rest) from h) (by simp)
              | percent => exact absurd (show (none : Option (Expr × List Tok)) = some (e, rest) from h) (by simp)
              | dstar => exact absurd (show (none : Option (Expr × List Tok)) = some (e, rest) from h) (by simp)
              | lparen => exact absurd (show (none : Option (Expr × List Tok)) = some (e, rest) from h) (by simp)
              | comma => exact absurd (show (none : Option (Expr × List Tok)) = some (e, rest) from h) (by simp)
        | star => exact absurd (show (none : Option (Expr × List Tok)) = some (e, rest) from h) (by simp)
        | slash => exact absurd (show (none : Option (Expr × List Tok)) = some (e, rest) from h) (by simp)
        | percent => exact absurd (List.mem_cons_self _ _) hts
        | dstar => exact absurd (show (none : Option (Expr × List Tok)) = some (e, rest) from h) (by simp)
        | rparen => exact absurd (show (none : Option (Expr × List Tok)) = some (e, rest) from h) (by simp)
        | comma => exact absurd (show (none : Option (Expr × List Tok)) = some (e, rest) from h) (by simp)
    · -- parseIdentTail
      intro id ts e rest hts h
      rw [parseIdentTail.eq_def] at h
      simp only [] at h
      cases hK : keywordConst id with
      | some c =>
        rw [hK] at h
        replace h : some ((Expr.const c : Expr), ts) = some (e, rest) := h
        simp at h
        exact ⟨h.1 ▸ rfl, h.2 ▸ hts⟩
      | none =>
        rw [hK] at h
        exact ihC id ts e rest hts h
    · -- parseCallTail
      intro id ts e rest hts h
      cases ts with
      | nil =>
        replace h : some ((Expr.name id : Expr), ([] : List Tok)) = some (e, rest) := h
        simp at h
        exact ⟨h.1 ▸ rfl, h.2 ▸ (by simp)⟩
      | cons t r' =>
        have hr' : Tok.percent ∉ r' := fun hm => hts (List.mem_cons_of_mem t hm)
        have hbare : some ((Expr.name id : Expr), t :: r') = some (e, rest) →
            containsModOp e = false ∧ Tok.percent ∉ rest := by
          intro hb
          simp at hb
          exact ⟨hb.1 ▸ rfl, hb.2 ▸ hts⟩
        have hargsCase : ∀ R : List Tok, Tok.percent ∉ R →
            (parseArgs fuel R).bind
              (fun p => some (.call (.name id) p.1, p.2)) = some (e, rest) →
            containsModOp e = false ∧ Tok.percent ∉ rest := by
          intro R hRmem hb
          cases hG : parseArgs fuel R with
          | none => rw [hG] at hb; exact absurd hb (by simp)
          | some pr =>
            obtain ⟨args, r3⟩ := pr
            rw [hG] at hb
            replace hb : some ((Expr.call (.name id) args : Expr), r3) = some (e, rest) := hb
            simp at hb
            obtain ⟨hG1, hG2⟩ := ihG R args r3 hRmem hG
            exact ⟨hb.1 ▸ (by simp [containsModOp, containsModOpList, hG1]), hb.2 ▸ hG2⟩
        cases t with
        | lparen =>
          cases r' with
          | nil => exact hargsCase [] (by simp) h
          | cons t2 r2 =>
            have hr2 : Tok.percent ∉ r2 := fun hm => hr' (List.mem_cons_of_mem t2 hm)
            cases t2 with
            | rparen =>
              replace h : some ((Expr.call (.name id) .nil : Expr), r2) = some (e, rest) := h
              simp at h
              exact ⟨h.1 ▸ (by simp [containsModOp, containsModOpList]), h.2 ▸ hr2⟩
            | num m2 s2 => exact hargsCase _ hr' h
            | strTok s2 => exact hargsCase _ hr' h
            | ident i2 => exact hargsCase _ hr' h
            | plus => exact hargsCase _ hr' h
            | minus => exact hargsCase _ hr' h
            | star => exact hargsCase _ hr' h
            | slash => exact hargsCase _ hr' h
            | percent => exact hargsCase _ hr' h
            | dstar => exact hargsCase _ hr' h
            | lparen => exact hargsCase _ hr' h
            | comma => exact hargsCase _ hr' h
        | num m s => exact hbare h
        | strTok s => exact hbare h
        | ident i2 => exact hbare h
        | plus => exact hbare h
        | minus => exact hbare h
        | star => exact hbare h
        | slash => exact hbare h
        | percent => exact absurd (List.mem_cons_self _ _) hts
        | dstar => exact hbare h
        | rparen => exact hbare h
        | comma => exact hbare h
    · -- parseArgs
      intro ts es rest hts h
      rw [parseArgs] at h
      cases hR : parsePrec fuel 1 ts with
      | none => rw [hR] at h; exact absurd h (by simp)
      | some pr =>
        obtain ⟨e1, r1⟩ := pr
        rw [hR] at h
        obtain ⟨hR1, hR2⟩ := ihP 1 ts e1 r1 hts hR
        cases r1 with
        | nil => exact absurd (show (none : Option (ExprList × List Tok)) = some (es, rest) from h) (by simp)
        | cons t2 r2 =>
          have hr2 : Tok.percent ∉ r2 := fun hm => hR2 (List.mem_cons_of_mem t2 hm)
          cases t2 with
          | comma =>
            replace h : (parseArgs fuel r2).bind
                (fun p => some (ExprList.cons e1 p.1, p.2)) = some (es, rest) := h
            cases hG : parseArgs fuel r2 with
            | none => rw [hG] at h; exact absurd h (by simp)
            | some pr2 =>
              obtain ⟨es2, r3⟩ := pr2
              rw [hG] at h
              replace h : some (ExprList.cons e1 es2, r3) = some (es, rest) := h
              simp at h
              obtain ⟨hG1, hG2⟩ := ihG r2 es2 r3 hr2 hG
              exact ⟨h.1 ▸ (by simp [containsModOpList, hR1, hG1]), h.2 ▸ hG2⟩
          | rparen =>
            replace h : some (ExprList.cons e1 .nil, r2) = some (es, rest) := h
            simp at h
            exact ⟨h.1 ▸ (by simp [containsModOpList, hR1]), h.2 ▸ hr2⟩
          | num m s => exact absurd (show (none : Option (ExprList × List Tok)) = some (es, rest) from h) (by simp)
          | strTok s => exact absurd (show (none : Option (ExprList × List Tok)) = some (es, rest) from h) (by simp)
          | ident i2 => exact absurd (show (none : Option (ExprList × List Tok)) = some (es, rest) from h) (by simp)
          | plus => exact absurd (show (none : Option (ExprList × List Tok)) = some (es, rest) from h) (by simp)
          | minus => exact absurd (show (none : Option (ExprList × List Tok)) = some (es, rest) from h) (by simp)
          | star => exact absurd (show (none : Option (ExprList × List Tok)) = some (es, rest) from h) (by simp)
          | slash => exact absurd (show (none : Option (ExprList × List Tok)) = some (es, rest) from h) (by simp)
          | percent => exact absurd (show (none : Option (ExprList × List Tok)) = some (es, rest) from h) (by simp)
          | dstar => exact absurd (show (none : Option (ExprList × List Tok)) = some (es, rest) from h) (by simp)
          | lparen => exact absurd (show (none : Option (ExprList × List Tok)) = some (es, rest) from h) (by simp)

/-- A token stream without `percent` parses only to trees without
`ast.Mod`: the whole-string wrapper. -/
theorem parseString_no_mod {cs : List Char} {e : Expr}
    (hcs : '%' ∉ cs) (h : parseString cs = some e) : containsModOp e = false := by
  unfold parseString at h
  cases htok : tokenize (cs.length + 1) cs with
  | none => rw [htok] at h; simp at h
  | some ts =>
    rw [htok] at h
    replace h : (match parsePrec (8 * ts.length + 32) 1 ts with
      | some (e, []) => some e
      | _ => none) = some e := h
    have hpct : Tok.percent ∉ ts := tokenize_no_percent _ cs ts hcs htok
    cases hp : parsePrec (8 * ts.length + 32) 1 ts with
    | none => rw [hp] at h; simp at h
    | some pr =>
      obtain ⟨e2, rest⟩ := pr
      rw [hp] at h
      cases rest with
      | nil =>
        replace h : some e2 = some e := h
        injection h with h
        exact h ▸ ((parse_no_mod_aux (8 * ts.length + 32)).1 1 ts e2 [] hpct hp).1
      | cons t r =>
        exact absurd (show (none : Option Expr) = some e from h) (by simp)


/-! ## Identifier-level lemmas for the closed-namespace property. -/

theorem identStart_ne_space {c : Char} (h : isIdentStart c = true) : c ≠ ' ' := by
  intro he
  subst he
  exact absurd h (by decide)

theorem identStart_not_digit {c : Char} (h : isIdentStart c = true) : c.isDigit = false := by
  unfold isIdentStart at h
  rcases (Bool.or_eq_true _ _).mp h with h | h
  · simp [Char.isAlpha, Char.isUpper, Char.isLower] at h
    simp [Char.isDigit]
    intro h3
    have h3' : (48 : ℕ) ≤ c.val.toNat := h3
    show (57 : ℕ) < c.val.toNat
    rcases h with ⟨h1, h2⟩ | ⟨h1, h2⟩
    · have h1' : (65 : ℕ) ≤ c.val.toNat := h1
      have h2' : c.val.toNat ≤ (90 : ℕ) := h2
      omega
    · have h1' : (97 : ℕ) ≤ c.val.toNat := h1
      have h2' : c.val.toNat ≤ (122 : ℕ) := h2
      omega
  · have : c = '_' := by simpa using h
    subst this
    decide

theorem identStart_identChar {c : Char} (h : isIdentStart c = true) : isIdentChar c = true := by
  unfold isIdentStart at h
  unfold isIdentChar
  rcases (Bool.or_eq_true _ _).mp h with h | h
  · simp [Char.isAlphanum, h]
  · simp [h]

theorem identChar_not_subst {c : Char} (h : isIdentChar c = true) :
    c ≠ '×' ∧ c ≠ '÷' ∧ c ≠ '^' ∧ c ≠ '%' := by
  refine ⟨?_, ?_, ?_, ?_⟩ <;> intro he <;> subst he <;> exact absurd h (by decide)

theorem replaceChar_append (old : Char) (new : List Char) (l1 l2 : List Char) :
    replaceChar old new (l1 ++ l2) = replaceChar old new l1 ++ replaceChar old new l2 := by
  induction l1 with
  | nil => simp [replaceChar]
  | cons c cs ih => simp [replaceChar, ih]

theorem replaceChar_id (old : Char) (new : List Char) (l : List Char)
    (h : ∀ c ∈ l, c ≠ old) : replaceChar old new l = l := by
  induction l with
  | nil => rfl
  | cons c cs ih =>
    simp only [replaceChar]
    rw [if_neg (h c (List.mem_cons_self c cs)), ih (fun x hx => h x (List.mem_cons_of_mem c hx))]
    rfl

theorem preprocessChars_append (l1 l2 : List Char) :
    preprocessChars (l1 ++ l2) = preprocessChars l1 ++ preprocessChars l2 := by
  unfold preprocessChars
  rw [replaceChar_append, replaceChar_append, replaceChar_append, replaceChar_append]

theorem preprocessChars_ident (l : List Char) (h : ∀ c ∈ l, isIdentChar c = true) :
    preprocessChars l = l := by
  unfold preprocessChars
  rw [replaceChar_id _ _ l (fun c hc => (identChar_not_subst (h c hc)).1),
      replaceChar_id _ _ l (fun c hc => (identChar_not_subst (h c hc)).2.1),
      replaceChar_id _ _ l (fun c hc => (identChar_not_subst (h c hc)).2.2.1),
      replaceChar_id _ _ l (fun c hc => (identChar_not_subst (h c hc)).2.2.2)]

theorem takeWhile_append_all {p : Char → Bool} :
    ∀ (l1 l2 : List Char), (∀ c ∈ l1, p c = true) →
      (l1 ++ l2).takeWhile p = l1 ++ l2.takeWhile p := by
  intro l1 l2 h
  induction l1 with
  | nil => simp
  | cons c cs ih =>
    rw [List.cons_append, List.takeWhile_cons_of_pos (h c (List.mem_cons_self c cs)),
      ih (fun x hx => h x (List.mem_cons_of_mem c hx))]
    rfl

theorem dropWhile_append_all {p : Char → Bool} :
    ∀ (l1 l2 : List Char), (∀ c ∈ l1, p c = true) →
      (l1 ++ l2).dropWhile p = l2.dropWhile p := by
  intro l1 l2 h
  induction l1 with
  | nil => simp
  | cons c cs ih =>
    rw [List.cons_append, List.dropWhile_cons_of_pos (h c (List.mem_cons_self c cs)),
      ih (fun x hx => h x (List.mem_cons_of_mem c hx))]

theorem tokenize_mono :
    ∀ f : ℕ, ∀ g cs ts, f ≤ g → tokenize f cs = some ts → tokenize g cs = some ts := by
  intro f
  induction f with
  | zero => intro g cs ts _ h; simp [tokenize] at h
  | succ f ih =>
    intro g cs ts hle h
    cases g with
    | zero => omega
    | succ g =>
      have hle' : f ≤ g := by omega
      cases cs with
      | nil =>
        replace h : some ([] : List Tok) = some ts := h
        injection h with h
        rw [← h]
        rfl
      | cons c cs' =>
        rw [tokenize] at h ⊢
        by_cases hsp : c = ' '
        · rw [if_pos hsp] at h ⊢
          exact ih g cs' ts hle' h
        · rw [if_neg hsp] at h ⊢
          cases hscan : scanTok (c :: cs') with
          | none =>
            rw [hscan] at h
            exact absurd (show (none : Option (List Tok)) = some ts from h) (by simp)
          | some pr =>
            obtain ⟨t, rest⟩ := pr
            rw [hscan] at h
            replace h : (tokenize f rest).map (fun ts => t :: ts) = some ts := h
            show (tokenize g rest).map (fun ts => t :: ts) = some ts
            cases hr : tokenize f rest with
            | none => rw [hr] at h; simp at h
            | some ts2 =>
              rw [ih g rest ts2 hle' hr]
              rw [hr] at h
              exact h

theorem scanTok_ident {c : Char} {cs l2 : List Char}
    (hstart : isIdentStart c = true) (hall : ∀ x ∈ cs, isIdentChar x = true)
    (htake : l2.takeWhile isIdentChar = []) (hdrop : l2.dropWhile isIdentChar = l2) :
    scanTok (c :: (cs ++ l2)) = some (Tok.ident (String.mk (c :: cs)), l2) := by
  show (if c.isDigit then some (scanNumber (c :: (cs ++ l2)))
    else if isIdentStart c then
      some (Tok.ident (String.mk ((c :: (cs ++ l2)).takeWhile isIdentChar)),
            (c :: (cs ++ l2)).dropWhile isIdentChar)
    else if c = quoteChar then scanStrLit (cs ++ l2)
    else if c = '*' then some (scanStar (cs ++ l2))
    else if c = '+' then some (Tok.plus, cs ++ l2)
    else if c = '-' then some (Tok.minus, cs ++ l2)
    else if c = '/' then some (Tok.slash, cs ++ l2)
    else if c = '%' then some (Tok.percent, cs ++ l2)
    else if c = '(' then some (Tok.lparen, cs ++ l2)
    else if c = ')' then some (Tok.rparen, cs ++ l2)
    else if c = ',' then some (Tok.comma, cs ++ l2)
    else none) = some (Tok.ident (String.mk (c :: cs)), l2)
  rw [show c.isDigit = false from identStart_not_digit hstart]
  rw [if_neg (by simp), if_pos hstart]
  rw [List.takeWhile_cons_of_pos (identStart_identChar hstart),
      List.dropWhile_cons_of_pos (identStart_identChar hstart),
      takeWhile_append_all cs l2 hall, dropWhile_append_all cs l2 hall,
      htake, hdrop, List.append_nil]

theorem tokenize_ident_head {c : Char} {cs : List Char} (l2 : List Char) (ts2 : List Tok)
    (hstart : isIdentStart c = true) (hall : ∀ x ∈ cs, isIdentChar x = true)
    (htake : l2.takeWhile isIdentChar = []) (hdrop : l2.dropWhile isIdentChar = l2)
    (hl2 : tokenize (l2.length + 1) l2 = some ts2) :
    ∀ n, l2.length + 1 ≤ n →
      tokenize (n + 1) (c :: (cs ++ l2)) = some (Tok.ident (String.mk (c :: cs)) :: ts2) := by
  intro n hn
  rw [tokenize]
  rw [if_neg (identStart_ne_space hstart)]
  rw [scanTok_ident hstart hall htake hdrop]
  show (tokenize n l2).map (fun ts => Tok.ident (String.mk (c :: cs)) :: ts) =
    some (Tok.ident (String.mk (c :: cs)) :: ts2)
  rw [tokenize_mono (l2.length + 1) n l2 ts2 hn hl2]
  rfl

/-- A Python identifier for the purposes of the closed-namespace claim:
non-empty, an identifier start character followed by identifier
characters, and not one of the keyword literals `True`/`False`/`None`
(which Python's parser turns into constants, not names). -/
def isPyIdent (s : String) : Bool :=
  match s.data with
  | [] => false
  | c :: cs =>
    isIdentStart c && cs.all isIdentChar &&
      !(s = "True" || s = "False" || s = "None")

theorem keywordConst_none {s : String}
    (h1 : s ≠ "True") (h2 : s ≠ "False") (h3 : s ≠ "None") :
    keywordConst s = none := by
  unfold keywordConst
  rw [if_neg h1, if_neg h2, if_neg h3]

theorem parsePrec_ident_call {id : String} (hK : keywordConst id = none) (m : ℕ) :
    parsePrec (m + 7) 1 [Tok.ident id, Tok.lparen, Tok.num 1 0, Tok.rparen] =
      some (.call (.name id) (.cons (.const (.num 1 0)) .nil), []) := by
  have h1 : parsePrec (m + 7) 1 [Tok.ident id, Tok.lparen, Tok.num 1 0, Tok.rparen] =
      (match keywordConst id with
        | some c => some ((Expr.const c : Expr), [Tok.lparen, Tok.num 1 0, Tok.rparen])
        | none => parseCallTail (m + 4) id [Tok.lparen, Tok.num 1 0, Tok.rparen]).bind
        (fun p => parseLoop (m + 6) 1 p.1 p.2) := rfl
  rw [h1, hK]
  rfl

theorem parsePrec_ident_bare {id : String} (hK : keywordConst id = none) (m : ℕ) :
    parsePrec (m + 7) 1 [Tok.ident id] = some (.name id, []) := by
  have h1 : parsePrec (m + 7) 1 [Tok.ident id] =
      (match keywordConst id with
        | some c => some ((Expr.const c : Expr), ([] : List Tok))
        | none => parseCallTail (m + 4) id []).bind
        (fun p => parseLoop (m + 6) 1 p.1 p.2) := rfl
  rw [h1, hK]
  rfl

theorem unknown_ident_fails (id : String) (hid : isPyIdent id = true)
    (hreg : registry id = none) :
    isErr (evaluate_expression (id ++ "(1)")) = true ∧
      isErr (evaluate_expression id) = true := by
  -- unpack the identifier hypothesis
  unfold isPyIdent at hid
  rcases hdata : id.data with _ | ⟨c, cs⟩
  · rw [hdata] at hid; simp at hid
  rw [hdata] at hid
  simp only [Bool.and_eq_true, Bool.not_eq_true', Bool.or_eq_false_iff,
    decide_eq_false_iff_not, List.all_eq_true] at hid
  obtain ⟨⟨hstart, hall⟩, ⟨hkw1, hkw2⟩, hkw3⟩ := hid
  have hallc : ∀ x ∈ c :: cs, isIdentChar x = true := by
    intro x hx
    rcases List.mem_cons.mp hx with hx | hx
    · exact hx ▸ identStart_identChar hstart
    · exact hall x hx
  have hK : keywordConst id = none := keywordConst_none hkw1 hkw2 hkw3
  have hmk : String.mk (c :: cs) = id := by rw [← hdata]
  -- the call form  "id(1)"
  constructor
  · have htok : tokenize ((id.data ++ "(1)".data).length + 1) (id.data ++ "(1)".data) =
        some [Tok.ident id, Tok.lparen, Tok.num 1 0, Tok.rparen] := by
      rw [hdata]
      rw [show ((c :: cs) ++ "(1)".data) = c :: (cs ++ "(1)".data) from rfl]
      rw [show (c :: (cs ++ "(1)".data)).length + 1 = ((cs ++ "(1)".data).length + 1) + 1 from rfl]
      rw [tokenize_ident_head "(1)".data [Tok.lparen, Tok.num 1 0, Tok.rparen]
        hstart (fun x hx => hall x hx) (by decide) (by decide) (by decide)
        ((cs ++ "(1)".data).length + 1)
        (by simp [List.length_append]), hmk]
    have hpre : preprocessChars ((id ++ "(1)").data) = id.data ++ "(1)".data := by
      rw [show (id ++ "(1)").data = id.data ++ "(1)".data from rfl]
      rw [preprocessChars_append]
      rw [preprocessChars_ident id.data (by rw [hdata]; exact hallc)]
      rw [show preprocessChars "(1)".data = "(1)".data from by decide]
    have hp : parseString (preprocessChars ((id ++ "(1)").data)) =
        some (.call (.name id) (.cons (.const (.num 1 0)) .nil)) := by
      rw [hpre]
      unfold parseString
      rw [htok]
      show (match parsePrec (8 * 4 + 32) 1 [Tok.ident id, Tok.lparen, Tok.num 1 0, Tok.rparen] with
        | some (e, []) => some e
        | _ => none) = _
      rw [show parsePrec (8 * 4 + 32) 1 [Tok.ident id, Tok.lparen, Tok.num 1 0, Tok.rparen] =
          some (.call (.name id) (.cons (.const (.num 1 0)) .nil), []) from
        parsePrec_ident_call hK 57]
    rw [evaluate_expression_eq_of_parse hp]
    simp only [evalAst]
    rw [hreg]
    rfl
  · have htok : tokenize (id.data.length + 1) id.data = some [Tok.ident id] := by
      rw [hdata]
      rw [show (c :: cs) = c :: (cs ++ ([] : List Char)) from by simp]
      rw [show (c :: (cs ++ ([] : List Char))).length + 1 = ((cs ++ ([] : List Char)).length + 1) + 1 from rfl]
      rw [tokenize_ident_head ([] : List Char) [] hstart (fun x hx => hall x hx)
        (by decide) (by decide) (by decide)
        ((cs ++ ([] : List Char)).length + 1) (by simp), hmk]
    have hpre : preprocessChars id.data = id.data :=
      preprocessChars_ident id.data (by rw [hdata]; exact hallc)
    have hp : parseString (preprocessChars id.data) = some (.name id) := by
      rw [hpre]
      unfold parseString
      rw [htok]
      show (match parsePrec (8 * 1 + 32) 1 [Tok.ident id] with
        | some (e, []) => some e
        | _ => none) = _
      rw [show parsePrec (8 * 1 + 32) 1 [Tok.ident id] = some (.name id, []) from
        parsePrec_ident_bare hK 33]
    rw [evaluate_expression_eq_of_parse hp]
    simp only [evalAst]
    rw [hreg]
    rfl

/-! ## The claims. -/

/-- Over the real idealization, `sin_deg 30` is exactly `1/2`. -/
theorem sin_deg_30 : sin_deg 30 = 1 / 2 := by
  unfold sin_deg radiansR
  rw [show (30 : ℝ) * Real.pi / 180 = Real.pi / 6 by ring]
  rw [Real.sin_pi_div_six]
  unfold round_small
  rw [if_neg (by rw [abs_of_pos] <;> norm_num)]

/-- Over the real idealization, `cos_deg 90` is exactly `0` (snapped). -/
theorem cos_deg_90 : cos_deg 90 = 0 := by
  unfold cos_deg radiansR
  rw [show (90 : ℝ) * Real.pi / 180 = Real.pi / 2 by ring]
  rw [Real.cos_pi_div_two]
  unfold round_small
  rw [if_pos (by norm_num)]

/-- Over the real idealization, `tan_deg 45` is exactly `1`. -/
theorem tan_deg_45 : tan_deg 45 = 1 := by
  unfold tan_deg radiansR
  rw [show (45 : ℝ) * Real.pi / 180 = Real.pi / 4 by ring]
  rw [Real.tan_pi_div_four]
  unfold round_small
  rw [if_neg (by rw [abs_of_pos] <;> norm_num)]



/-- C2: the registered `sin`, `cos`, `tan` are the degree-based,
snap-to-zero overrides, and consequently `sin(30)` evaluates to `0.5`,
`cos(90)` to exactly `0`, and `tan(45)` to a value within `1e-10` of
`1.0` (here exactly `1`, floats being idealized as reals). -/
theorem claim_C2_degree_trig :
    registry "sin" = some (.fn (liftReal sin_deg)) ∧
    registry "cos" = some (.fn (liftReal cos_deg)) ∧
    registry "tan" = some (.fn (liftReal tan_deg)) ∧
    evaluate_expression "sin(30)" = .ok (.num 0.5) ∧
    evaluate_expression "cos(90)" = .ok (.num 0) ∧
    ∃ t : ℝ, evaluate_expression "tan(45)" = .ok (.num t) ∧ |t - 1| < 1e-10 := by
  refine ⟨rfl, rfl, rfl, ?_, ?_, ?_⟩
  · rw [evaluate_expression_eq_of_parse (show parseString (preprocessChars "sin(30)".data) =
      some (.call (.name "sin") (.cons (.const (.num 30 0)) .nil)) from by decide)]
    simp [evalAst, evalArgs, constVal, registry, applyEntry, liftReal]
    norm_num [sin_deg_30]
  · rw [evaluate_expression_eq_of_parse (show parseString (preprocessChars "cos(90)".data) =
      some (.call (.name "cos") (.cons (.const (.num 90 0)) .nil)) from by decide)]
    simp [evalAst, evalArgs, constVal, registry, applyEntry, liftReal]
    norm_num [cos_deg_90]
  · refine ⟨1, ?_, by norm_num⟩
    rw [evaluate_expression_eq_of_parse (show parseString (preprocessChars "tan(45)".data) =
      some (.call (.name "tan") (.cons (.const (.num 45 0)) .nil)) from by decide)]
    simp [evalAst, evalArgs, constVal, registry, applyEntry, liftReal]
    norm_num [tan_deg_45]



/-- C1: fail-closed evaluation.  Any tree containing a node kind,
operator, or identifier outside the allow-list evaluates to an error,
never a value; in particular the input `__import__('os')` (call target
absent from the registry) and the assignment `x=1` (rejected by the
parser) both make `evaluate_expression` return a failure. -/
theorem claim_C1_fail_closed :
    (∀ e : Expr, containsDisallowed e = true → isErr (evalAst e) = true) ∧
    isErr (evaluate_expression "__import__('os')") = true ∧
    isErr (evaluate_expression "x=1") = true := by
  refine ⟨fun e hd => evalAst_err_of_disallowed hd, ?_, ?_⟩
  · rw [evaluate_expression_eq_of_parse (show parseString (preprocessChars "__import__('os')".data) =
      some (.call (.name "__import__") (.cons (.const (.str "os")) .nil)) from by decide)]
    rfl
  · rw [evaluate_expression_synErr_of_parse_none (show parseString (preprocessChars "x=1".data) =
      none from by decide)]
    rfl

/-- Witness for C1 at the attribute-access node `os.system`. -/
theorem claim_C1_witness :
    containsDisallowed (.attrAccess (.name "os") "system") = true ∧
      isErr (evalAst (.attrAccess (.name "os") "system")) = true :=
  ⟨rfl, claim_C1_fail_closed.1 _ rfl⟩

/-- C3: arithmetic correctness.  `evaluate("2+3*4") = 14`,
`"2^10"` is first rewritten to `"2**10"` and evaluates to `1024`, and
`evaluate("(2+3)*4") = 20`. -/
theorem claim_C3_arithmetic :
    evaluate_expression "2+3*4" = .ok (.num 14) ∧
    preprocessChars "2^10".data = "2**10".data ∧
    evaluate_expression "2^10" = .ok (.num 1024) ∧
    evaluate_expression "(2+3)*4" = .ok (.num 20) := by
  refine ⟨?_, by decide, ?_, ?_⟩
  · rw [evaluate_expression_eq_of_parse (show parseString (preprocessChars "2+3*4".data) =
      some (.binop .add (.const (.num 2 0)) (.binop .mult (.const (.num 3 0)) (.const (.num 4 0)))) from by decide)]
    simp [evalAst, constVal, allowedBinFn, binAdd, binMul, asNum]
    norm_num
  · rw [evaluate_expression_eq_of_parse (show parseString (preprocessChars "2^10".data) =
      some (.binop .pow (.const (.num 2 0)) (.const (.num 10 0))) from by decide)]
    simp [evalAst, constVal, allowedBinFn, binPow, asNum, pyPow]
    norm_num
  · rw [evaluate_expression_eq_of_parse (show parseString (preprocessChars "(2+3)*4".data) =
      some (.binop .mult (.binop .add (.const (.num 2 0)) (.const (.num 3 0))) (.const (.num 4 0))) from by decide)]
    simp [evalAst, constVal, allowedBinFn, binAdd, binMul, asNum]
    norm_num

/-- C5 counterexample: `evaluate("(-2)^0.5")` — a negative base raised
to a fractional exponent — does NOT fail: Python 3 returns a complex
number, which is passed through. -/
theorem claim_C5_counterexample : isErr (evaluate_expression "(-2)^0.5") = false := by
  rw [evaluate_expression_eq_of_parse (show parseString (preprocessChars "(-2)^0.5".data) =
    some (.binop .pow (.unop .usub (.const (.num 2 0))) (.const (.num 5 1))) from by decide)]
  simp only [evalAst, constVal, allowedBinFn, allowedUnFn, unNeg, binPow, asNum,
    except_bind_ok]
  norm_num
  unfold pyPow
  rw [if_neg (by norm_num), if_neg (by norm_num), if_neg ?hn]
  · simp
  · rintro ⟨n, hn⟩
    have h2 : ((2 : ℤ) : ℝ) * (1 / 2 : ℝ) = ((2 : ℤ) : ℝ) * (n : ℝ) := by rw [← hn]
    have h1 : ((1 : ℤ) : ℝ) = ((2 * n : ℤ) : ℝ) := by push_cast; push_cast at h2; linarith
    have := (Int.cast_injective : Function.Injective (Int.cast : ℤ → ℝ)) h1
    omega

/-- C5 as amended: division by zero and `sqrt` of a negative number
propagate as failures, but raising a negative base to a fractional
exponent does not fail — it yields a complex (non-real) value that is
silently returned for display. -/
theorem claim_C5_domain_errors :
    evaluate_expression "1/0" = .error .zeroDiv ∧
    evaluate_expression "sqrt(-1)" = .error .domainErr ∧
    ∃ re im : ℝ, evaluate_expression "(-2)^0.5" = .ok (.complexV re im) := by
  refine ⟨?_, ?_, ?_⟩
  · rw [evaluate_expression_eq_of_parse (show parseString (preprocessChars "1/0".data) =
      some (.binop .div (.const (.num 1 0)) (.const (.num 0 0))) from by decide)]
    simp [evalAst, constVal, allowedBinFn, binDiv, asNum]
  · rw [evaluate_expression_eq_of_parse (show parseString (preprocessChars "sqrt(-1)".data) =
      some (.call (.name "sqrt") (.cons (.unop .usub (.const (.num 1 0))) .nil)) from by decide)]
    simp [evalAst, evalArgs, constVal, allowedUnFn, unNeg, asNum, registry, applyEntry, math_sqrt]
  · refine ⟨(((-2 : ℝ) : ℂ) ^ ((1 / 2 : ℝ) : ℂ)).re, (((-2 : ℝ) : ℂ) ^ ((1 / 2 : ℝ) : ℂ)).im, ?_⟩
    rw [evaluate_expression_eq_of_parse (show parseString (preprocessChars "(-2)^0.5".data) =
      some (.binop .pow (.unop .usub (.const (.num 2 0))) (.const (.num 5 1))) from by decide)]
    simp only [evalAst, constVal, allowedBinFn, allowedUnFn, unNeg, binPow, asNum,
      except_bind_ok]
    norm_num
    unfold pyPow
    rw [if_neg (by norm_num), if_neg (by norm_num), if_neg ?hn]
    · norm_num
    · rintro ⟨n, hn⟩
      have h2 : ((2 : ℤ) : ℝ) * (1 / 2 : ℝ) = ((2 : ℤ) : ℝ) * (n : ℝ) := by rw [← hn]
      have h1 : ((1 : ℤ) : ℝ) = ((2 * n : ℤ) : ℝ) := by push_cast; push_cast at h2; linarith
      have := (Int.cast_injective : Function.Injective (Int.cast : ℤ → ℝ)) h1
      omega

/-- C6 counterexample: evaluating the bare name `sqrt`, which resolves
to a FUNCTION in the registry, succeeds and returns the function object
instead of failing. -/
theorem claim_C6_counterexample : evaluate_expression "sqrt" = .ok (.funcObj "sqrt") := by
  rw [evaluate_expression_eq_of_parse (show parseString (preprocessChars "sqrt".data) =
    some (.name "sqrt") from by decide)]
  rfl

/-- C6 as amended: evaluating a bare name fails exactly when the name
is absent from the registry; a present name returns the registered
object — a constant's value (e.g. `pi`) or, for a function name such as
`sqrt`, the function object itself. -/
theorem claim_C6_bare_names :
    (∀ id : String, registry id = none → isErr (evalAst (.name id)) = true) ∧
    evaluate_expression "sqrt" = .ok (.funcObj "sqrt") ∧
    evaluate_expression "pi" = .ok (.num Real.pi) := by
  refine ⟨?_, ?_, ?_⟩
  · intro id hreg
    simp only [evalAst]
    rw [hreg]
    rfl
  · rw [evaluate_expression_eq_of_parse (show parseString (preprocessChars "sqrt".data) =
      some (.name "sqrt") from by decide)]
    rfl
  · rw [evaluate_expression_eq_of_parse (show parseString (preprocessChars "pi".data) =
      some (.name "pi") from by decide)]
    rfl

/-- Witness for C6 at the absent name `zzz`. -/
theorem claim_C6_witness :
    registry "zzz" = none ∧ isErr (evalAst (.name "zzz")) = true :=
  ⟨rfl, claim_C6_bare_names.1 "zzz" rfl⟩

/-- C7 counterexample: the string literal `'abc'` is not rejected —
`safe_eval` returns the string `"abc"` itself, a non-numeric value. -/
theorem claim_C7_counterexample : evaluate_expression "'abc'" = .ok (.str "abc") := by
  rw [evaluate_expression_eq_of_parse (show parseString (preprocessChars "'abc'".data) =
    some (.const (.str "abc")) from by decide)]
  rfl

/-- C7 as amended: `safe_eval` returns the value of any `Constant`
node unchanged, including non-numeric literals (strings via `'abc'`,
booleans via `True`); only node kinds without a handler (e.g.
subscripting) are rejected. -/
theorem claim_C7_constants :
    evaluate_expression "'abc'" = .ok (.str "abc") ∧
    evaluate_expression "True" = .ok (.bool true) ∧
    isErr (evalAst (.subscript (.name "pi") (.const (.num 0 0)))) = true := by
  refine ⟨?_, ?_, rfl⟩
  · rw [evaluate_expression_eq_of_parse (show parseString (preprocessChars "'abc'".data) =
      some (.const (.str "abc")) from by decide)]
    rfl
  · rw [evaluate_expression_eq_of_parse (show parseString (preprocessChars "True".data) =
      some (.const (.bool true)) from by decide)]
    rfl

/-- C8: the trailing percent token is textually replaced by `/100`
before parsing, so `evaluate("50%") = 0.5`. -/
theorem claim_C8_percent :
    preprocessChars "50%".data = "50/100".data ∧
    evaluate_expression "50%" = .ok (.num 0.5) := by
  refine ⟨by decide, ?_⟩
  rw [evaluate_expression_eq_of_parse (show parseString (preprocessChars "50%".data) =
    some (.binop .div (.const (.num 50 0)) (.const (.num 100 0))) from by decide)]
  simp [evalAst, constVal, allowedBinFn, binDiv, asNum]
  norm_num

/-- C9: for every input string the preprocessing step replaces every
`'%'` with `/100` before parsing, so no parse reached through
`evaluate_expression` contains an `ast.Mod` node and true modulo
arithmetic is unreachable; pressing `7 mod 3` actually computes
`7/1003`. -/
theorem claim_C9_mod_unreachable :
    (∀ s : String, '%' ∉ preprocessChars s.data ∧
      ∀ e : Expr, parseString (preprocessChars s.data) = some e →
        containsModOp e = false) ∧
    evaluate_expression "7%3" = .ok (.num (7 / 1003)) := by
  constructor
  · intro s
    exact ⟨percent_not_mem_preprocess s.data,
      fun e he => parseString_no_mod (percent_not_mem_preprocess s.data) he⟩
  · rw [evaluate_expression_eq_of_parse (show parseString (preprocessChars "7%3".data) =
      some (.binop .div (.const (.num 7 0)) (.const (.num 1003 0))) from by decide)]
    simp [evalAst, constVal, allowedBinFn, binDiv, asNum]

/-- Witness for C9 at the input `5%2`, which parses as `5/1002`. -/
theorem claim_C9_witness :
    parseString (preprocessChars "5%2".data) =
      some (.binop .div (.const (.num 5 0)) (.const (.num 1002 0))) ∧
    containsModOp (.binop .div (.const (.num 5 0)) (.const (.num 1002 0))) = false :=
  ⟨by decide, (claim_C9_mod_unreachable.1 "5%2").2 _ (by decide)⟩

/-- C10: the snap-to-zero in `sin_deg`/`cos_deg`/`tan_deg` is decided
by the magnitude of the computed result alone: whenever it is below
`1e-10` the function returns exactly `0`, even when the exact value is
nonzero, as at `x = 1e-9` where the sine is positive yet `sin_deg`
returns `0`. -/
theorem claim_C10_snap_to_zero :
    (∀ x : ℝ, |Real.sin (radiansR x)| < 1e-10 → sin_deg x = 0) ∧
    (∀ x : ℝ, |Real.cos (radiansR x)| < 1e-10 → cos_deg x = 0) ∧
    (∀ x : ℝ, |Real.tan (radiansR x)| < 1e-10 → tan_deg x = 0) ∧
    (sin_deg 1e-9 = 0 ∧ Real.sin (radiansR 1e-9) ≠ 0) := by
  refine ⟨fun x hx => by unfold sin_deg round_small; rw [if_pos hx],
    fun x hx => by unfold cos_deg round_small; rw [if_pos hx],
    fun x hx => by unfold tan_deg round_small; rw [if_pos hx], ?_, ?_⟩
  · have hpos : 0 < radiansR 1e-9 := by
      unfold radiansR
      have := Real.pi_pos
      positivity
    have hsinpos : 0 < Real.sin (radiansR 1e-9) := by
      apply Real.sin_pos_of_pos_of_lt_pi hpos
      unfold radiansR
      have := Real.pi_pos
      nlinarith
    have hlt : Real.sin (radiansR 1e-9) < 1e-10 := by
      have h1 : Real.sin (radiansR 1e-9) < radiansR 1e-9 := Real.sin_lt hpos
      have h2 : radiansR 1e-9 < 1e-10 := by
        unfold radiansR
        have := Real.pi_lt_d2
        nlinarith
      linarith
    unfold sin_deg round_small
    rw [if_pos (by rw [abs_of_pos hsinpos]; exact hlt)]
  · have hpos : 0 < radiansR 1e-9 := by
      unfold radiansR
      have := Real.pi_pos
      positivity
    have hsinpos : 0 < Real.sin (radiansR 1e-9) := by
      apply Real.sin_pos_of_pos_of_lt_pi hpos
      unfold radiansR
      have := Real.pi_pos
      nlinarith
    exact ne_of_gt hsinpos

/-- Witness for C10 at `x = 0`. -/
theorem claim_C10_witness : sin_deg 0 = 0 :=
  claim_C10_snap_to_zero.1 0 (by simp [radiansR]; norm_num)

/-- C4: closed namespace.  For every Python identifier `id` (excluding
the keyword constants `True`/`False`/`None`, which lex as names but
parse as constants) that is not present in the registry, both
`evaluate("id(1)")` and `evaluate("id")` fail rather than return a
value. -/
theorem claim_C4_closed_namespace (id : String) (hid : isPyIdent id = true)
    (hreg : registry id = none) :
    isErr (evaluate_expression (id ++ "(1)")) = true ∧
      isErr (evaluate_expression id) = true :=
  unknown_ident_fails id hid hreg

/-- Witness for C4 at the identifier `foo`. -/
theorem claim_C4_witness :
    isPyIdent "foo" = true ∧ registry "foo" = none ∧
      isErr (evaluate_expression "foo(1)") = true ∧
      isErr (evaluate_expression "foo") = true :=
  ⟨by decide, rfl, (claim_C4_closed_namespace "foo" (by decide) rfl).1,
    (claim_C4_closed_namespace "foo" (by decide) rfl).2⟩

end Calc
